import Mathlib

/-!
Verification of `intake_esgf/core.py` against its specification.

The Python source is shallowly embedded: pure functions become Lean
functions, the filesystem effects of the retrieval engine become explicit
state passing over an association-list filesystem, and exceptions become
`Option`/`Except` results.  The network is a parameter mapping a URL to the
outcome of `requests.get` on it, and the hash functions of `hashlib` are a
parameter mapping an algorithm name and a byte content to a digest string.
-/

/-- Byte contents of a file, abstracted as a list of byte values. -/
abbrev Bytes := List Nat

/-- Outcome of `requests.get(url, stream=True)` followed by streaming the body:
either the connection fails outright (no byte written), the response has a
non-success status (`raise_for_status` raises, no byte written), the stream
drops mid-transfer after some bytes were already written to the open file, or
the full content arrives. -/
inductive TransferResult where
  | connectFail
  | statusError
  | midStream (written : Bytes)
  | complete (content : Bytes)
deriving DecidableEq, Repr

/-- The network: what `requests.get` does at each URL. -/
structure Net where
  get : String → TransferResult

/-- Errors that `download_and_verify` can raise: a `requests` connection error,
an HTTP error from `raise_for_status`, or the `ValueError` raised on a hash
mismatch. -/
inductive DownloadErr where
  | connectionError
  | httpError
  | hashMismatch
deriving DecidableEq, Repr

/-- The destination filesystem tree: an association list from path to byte
content. -/
structure FS where
  files : List (String × Bytes)
deriving DecidableEq, Repr

/-- `Path.exists` on the modelled filesystem. -/
def FS.pathExists (fs : FS) (p : String) : Bool :=
  fs.files.any (fun e => e.1 == p)

/-- `open(p, "wb")` followed by writing `b`: the path now holds exactly `b`. -/
def FS.write (fs : FS) (p : String) (b : Bytes) : FS :=
  ⟨(p, b) :: fs.files.filter (fun e => e.1 != p)⟩

/-- `Path.unlink`: remove the path. -/
def FS.unlink (fs : FS) (p : String) : FS :=
  ⟨fs.files.filter (fun e => e.1 != p)⟩

/-- Embedding of `download_and_verify` (core.py lines 240-270).  The body of
the Python function: `requests.get`, `raise_for_status`, stream the chunks
into the freshly opened local file, then compare `get_file_hash(local_file,
hash_algorithm)` with `hash` and unlink on mismatch.  `hashFn algorithm
content` stands for the digest of `content` under `algorithm`.  Returns the
filesystem after the call together with `some e` when the Python code raises
`e` and `none` when it returns normally. -/
def download_and_verify (net : Net) (hashFn : String → Bytes → String)
    (url : String) (local_file : String) (hash : String)
    (hash_algorithm : String) (fs : FS) : FS × Option DownloadErr :=
  match net.get url with
  | TransferResult.connectFail => (fs, some DownloadErr.connectionError)
  | TransferResult.statusError => (fs, some DownloadErr.httpError)
  | TransferResult.midStream written =>
      (fs.write local_file written, some DownloadErr.connectionError)
  | TransferResult.complete content =>
      let fs1 := fs.write local_file content
      if hashFn hash_algorithm content != hash then
        (fs1.unlink local_file, some DownloadErr.hashMismatch)
      else
        (fs1, none)

/-- The `info` dictionary consumed by `parallel_download`: request key,
relative path, declared checksum and algorithm, declared size, and the
ordered list of HTTPServer mirror URLs. -/
structure TaskInfo where
  key : String
  path : String
  checksum : String
  checksum_type : String
  size : Nat
  HTTPServer : List String
deriving DecidableEq, Repr

/-- `a / b` on `pathlib` paths, for the path shapes used here. -/
def joinPath (a b : String) : String := a ++ "/" ++ b

/-- The `for url in info["HTTPServer"]` loop of `parallel_download` (core.py
lines 287-292): call `download_and_verify` on each URL in order; an exception
from `download_and_verify` propagates (there is no try/except around the
call), and on normal return the loop breaks as soon as the local file
exists. -/
def tryLinks (net : Net) (hashFn : String → Bytes → String) (info : TaskInfo)
    (local_file : String) : List String → FS → FS × Option DownloadErr
  | [], fs => (fs, none)
  | url :: rest, fs =>
      let r := download_and_verify net hashFn url local_file info.checksum
        info.checksum_type fs
      match r.2 with
      | some e => (r.1, some e)
      | none =>
          if r.1.pathExists local_file then (r.1, none)
          else tryLinks net hashFn info local_file rest r.1

/-- Embedding of `parallel_download` (core.py lines 273-293): local data root
hit, then local cache hit, then the mirror loop; finally return
`(info["key"], local_file)`.  An exception raised inside the loop becomes
`Except.error`. -/
def parallel_download (net : Net) (hashFn : String → Bytes → String)
    (info : TaskInfo) (local_cache : String) (esg_dataroot : Option String)
    (fs : FS) : FS × Except DownloadErr (String × String) :=
  let roothit : Option String :=
    match esg_dataroot with
    | some root =>
        if fs.pathExists (joinPath root info.path) then
          some (joinPath root info.path)
        else none
    | none => none
  match roothit with
  | some p => (fs, Except.ok (info.key, p))
  | none =>
      let local_file := joinPath local_cache info.path
      if fs.pathExists local_file then (fs, Except.ok (info.key, local_file))
      else
        let r := tryLinks net hashFn info local_file info.HTTPServer fs
        match r.2 with
        | some e => (r.1, Except.error e)
        | none => (r.1, Except.ok (info.key, local_file))

/-- Unlinking a path removes it from the filesystem. -/
theorem FS.pathExists_unlink (fs : FS) (p : String) :
    (fs.unlink p).pathExists p = false := by
  simp only [FS.unlink, FS.pathExists]
  rw [List.any_eq_false]
  intro e he
  have hne := (List.mem_filter.mp he).2
  simp only [bne_iff_ne, ne_eq] at hne
  simp only [beq_iff_eq]
  exact hne

/-- Writing a path makes it exist. -/
theorem FS.pathExists_write (fs : FS) (p : String) (b : Bytes) :
    (fs.write p b).pathExists p = true := by
  simp [FS.write, FS.pathExists]

/-- C3: whenever the digest computed from a fully downloaded file does not
match the declared checksum, `download_and_verify` deletes the downloaded
file before raising the error, so no file exists at the destination when the
checksum-mismatch error surfaces. -/
theorem download_and_verify_mismatch_deletes (net : Net)
    (hashFn : String → Bytes → String)
    (url local_file hash hash_algorithm : String) (fs : FS) (content : Bytes)
    (hget : net.get url = TransferResult.complete content)
    (hmis : hashFn hash_algorithm content ≠ hash) :
    (download_and_verify net hashFn url local_file hash hash_algorithm fs).2 =
      some DownloadErr.hashMismatch ∧
    ((download_and_verify net hashFn url local_file hash
        hash_algorithm fs).1).pathExists local_file = false := by
  have hb : (hashFn hash_algorithm content != hash) = true := by
    simpa [bne_iff_ne] using hmis
  constructor
  · simp [download_and_verify, hget, hb]
  · simp only [download_and_verify, hget, hb, if_true]
    exact FS.pathExists_unlink _ _

/-- C3 witness at a concrete input. -/
theorem download_and_verify_mismatch_deletes_witness :
    (download_and_verify ⟨fun _ => TransferResult.complete [1]⟩
        (fun _ _ => "x") "u" "cache/f" "y" "sha256" ⟨[]⟩).2 =
      some DownloadErr.hashMismatch ∧
    ((download_and_verify ⟨fun _ => TransferResult.complete [1]⟩
        (fun _ _ => "x") "u" "cache/f" "y" "sha256" ⟨[]⟩).1).pathExists
      "cache/f" = false :=
  download_and_verify_mismatch_deletes _ _ _ _ _ _ _ _ rfl (by decide)

/-- C2 counterexample: a transport failure mid-stream, after bytes have been
written, is a non-success exit that leaves the partially-written file at the
destination: `download_and_verify` only unlinks in its checksum-mismatch
branch, so the claim that no partially-written file remains on every
non-success exit is false. -/
theorem download_and_verify_midstream_leaves_file :
    (download_and_verify ⟨fun _ => TransferResult.midStream [7]⟩
        (fun _ _ => "h") "u" "cache/f" "h" "sha256" ⟨[]⟩).2 =
      some DownloadErr.connectionError ∧
    ((download_and_verify ⟨fun _ => TransferResult.midStream [7]⟩
        (fun _ _ => "h") "u" "cache/f" "h" "sha256" ⟨[]⟩).1).pathExists
      "cache/f" = true := by
  exact ⟨rfl, rfl⟩

/-- C2 amended: on every non-success exit of `download_and_verify` other than
a mid-stream transport failure — a connection failure or non-success status
before any byte is written, or a checksum mismatch after the full download —
no file remains at the destination path. -/
theorem download_and_verify_no_file_on_non_midstream_failure (net : Net)
    (hashFn : String → Bytes → String)
    (url local_file hash hash_algorithm : String) (fs : FS)
    (hinit : fs.pathExists local_file = false)
    (hmid : ∀ b, net.get url ≠ TransferResult.midStream b) :
    ∀ e, (download_and_verify net hashFn url local_file hash
        hash_algorithm fs).2 = some e →
      ((download_and_verify net hashFn url local_file hash
          hash_algorithm fs).1).pathExists local_file = false := by
  intro e
  cases hg : net.get url with
  | connectFail => simp only [download_and_verify, hg]; intro _; exact hinit
  | statusError => simp only [download_and_verify, hg]; intro _; exact hinit
  | midStream b => exact absurd hg (hmid b)
  | complete c =>
      simp only [download_and_verify, hg]
      by_cases hb : (hashFn hash_algorithm c != hash) = true
      · simp only [hb, if_true]
        intro _
        exact FS.pathExists_unlink _ _
      · simp only [Bool.not_eq_true] at hb
        simp [hb]

/-- C2 amended witness at a concrete input (non-success HTTP status). -/
theorem download_and_verify_no_file_witness :
    ((download_and_verify ⟨fun _ => TransferResult.statusError⟩
        (fun _ _ => "h") "u" "cache/f" "h" "sha256" ⟨[]⟩).1).pathExists
      "cache/f" = false :=
  download_and_verify_no_file_on_non_midstream_failure _ _ _ _ _ _ _
    (by decide) (fun b h => TransferResult.noConfusion h)
    DownloadErr.httpError rfl

/-- C1 (defect record): for a task whose first mirror serves bytes failing
the checksum and whose second mirror serves bytes passing it, the error
raised by `download_and_verify` on the first mirror propagates out of
`parallel_download` — there is no try/except around the call, so the loop
never advances to the second mirror and the task ends in an error rather
than verified.  The second conjunct shows the same task with only the second
mirror would have verified with that mirror's content. -/
theorem parallel_download_checksum_mismatch_aborts :
    parallel_download
      ⟨fun u => if u == "u1" then TransferResult.complete [1]
        else TransferResult.complete [2]⟩
      (fun _ b => if b == [2] then "good" else "bad")
      ⟨"k", "d/f.nc", "good", "sha256", 4, ["u1", "u2"]⟩ "cache" none ⟨[]⟩ =
      (⟨[]⟩, Except.error DownloadErr.hashMismatch) ∧
    parallel_download
      ⟨fun u => if u == "u1" then TransferResult.complete [1]
        else TransferResult.complete [2]⟩
      (fun _ b => if b == [2] then "good" else "bad")
      ⟨"k", "d/f.nc", "good", "sha256", 4, ["u2"]⟩ "cache" none ⟨[]⟩ =
      (⟨[("cache/d/f.nc", [2])]⟩, Except.ok ("k", "cache/d/f.nc")) := by
  exact ⟨rfl, rfl⟩

/-- C4: a hit under the read-only data root returns that path at once, and a
hit under the local cache returns the cached path; in both cases the
filesystem is unchanged and the result does not depend on the network or on
the hash functions — no network call and no checksum verification occur. -/
theorem parallel_download_local_hit (net net2 : Net)
    (hashFn hashFn2 : String → Bytes → String) (info : TaskInfo)
    (local_cache : String) (esg_dataroot : Option String) (fs : FS) :
    (∀ root, esg_dataroot = some root →
      fs.pathExists (joinPath root info.path) = true →
      parallel_download net hashFn info local_cache esg_dataroot fs =
        (fs, Except.ok (info.key, joinPath root info.path)) ∧
      parallel_download net hashFn info local_cache esg_dataroot fs =
        parallel_download net2 hashFn2 info local_cache esg_dataroot fs) ∧
    ((∀ root, esg_dataroot = some root →
        fs.pathExists (joinPath root info.path) = false) →
      fs.pathExists (joinPath local_cache info.path) = true →
      parallel_download net hashFn info local_cache esg_dataroot fs =
        (fs, Except.ok (info.key, joinPath local_cache info.path)) ∧
      parallel_download net hashFn info local_cache esg_dataroot fs =
        parallel_download net2 hashFn2 info local_cache esg_dataroot fs) := by
  constructor
  · intro root hroot hex
    subst hroot
    constructor <;> simp [parallel_download, hex]
  · intro hmiss hcache
    cases esg_dataroot with
    | none => constructor <;> simp [parallel_download, hcache]
    | some root =>
        have hm := hmiss root rfl
        constructor <;> simp [parallel_download, hm, hcache]

/-- C4 witness at a concrete input (data-root hit). -/
theorem parallel_download_local_hit_witness :
    parallel_download ⟨fun _ => TransferResult.connectFail⟩ (fun _ _ => "h")
      ⟨"k", "p.nc", "c", "sha256", 1, ["u"]⟩ "cache" (some "root")
      ⟨[("root/p.nc", [1])]⟩ =
      (⟨[("root/p.nc", [1])]⟩, Except.ok ("k", "root/p.nc")) :=
  ((parallel_download_local_hit _ ⟨fun _ => TransferResult.statusError⟩ _
      (fun _ _ => "g") _ _ _ _).1 "root" rfl (by decide)).1

/-- C10: when the file exists neither under the data root nor under the local
cache and the HTTPServer mirror list is empty, `parallel_download` returns
the (key, cache path) pair without any error, the filesystem is unchanged,
and the returned path refers to a file that does not exist. -/
theorem parallel_download_no_links (net : Net)
    (hashFn : String → Bytes → String) (info : TaskInfo)
    (local_cache : String) (esg_dataroot : Option String) (fs : FS)
    (hempty : info.HTTPServer = [])
    (hmiss : ∀ root, esg_dataroot = some root →
      fs.pathExists (joinPath root info.path) = false)
    (hcache : fs.pathExists (joinPath local_cache info.path) = false) :
    parallel_download net hashFn info local_cache esg_dataroot fs =
      (fs, Except.ok (info.key, joinPath local_cache info.path)) ∧
    fs.pathExists (joinPath local_cache info.path) = false := by
  refine ⟨?_, hcache⟩
  cases esg_dataroot with
  | none => simp [parallel_download, hcache, hempty, tryLinks]
  | some root =>
      have hm := hmiss root rfl
      simp [parallel_download, hm, hcache, hempty, tryLinks]

/-- C10 witness at a concrete input. -/
theorem parallel_download_no_links_witness :
    parallel_download ⟨fun _ => TransferResult.connectFail⟩ (fun _ _ => "h")
      ⟨"k", "p.nc", "c", "sha256", 1, []⟩ "cache" none ⟨[]⟩ =
      (⟨[]⟩, Except.ok ("k", "cache/p.nc")) ∧
    FS.pathExists ⟨[]⟩ "cache/p.nc" = false :=
  parallel_download_no_links _ _ _ _ _ _ rfl
    (fun root h => Option.noConfusion h) (by decide)

/-- Python regex whitespace class (the complement of `\S`), over the ASCII
range used by the identifiers handled here. -/
def pySpace (c : Char) : Bool :=
  c == ' ' || c == '\t' || c == '\n' || c == '\r' || c == '\x0b' || c == '\x0c'

/-- The regex character class `[^.|]`. -/
def notSep (c : Char) : Bool := c != '.' && c != '|'

/-- One capture group `(?P<c>\S[^.|]+)` of the pattern built by
`get_dataset_pattern` (core.py line 33): a non-whitespace character followed
by a nonempty maximal run of characters that are neither '.' nor '|'.  The
run is necessarily maximal: the quantifier is greedy, and no backtracking
can ever shorten it, because every context following a group in the pattern
demands '.' or '|' while the character after any shorter run would still lie
in `[^.|]`. -/
def matchFacet : List Char → Option (List Char × List Char)
  | [] => none
  | c :: cs =>
      if pySpace c then none
      else if (cs.takeWhile notSep).isEmpty then none
      else some (c :: cs.takeWhile notSep, cs.dropWhile notSep)

/-- The first `n` groups of the pattern joined by literal dots
(`r"\.".join(...)`, core.py line 33). -/
def matchDotFacets : Nat → List Char → Option (List (List Char) × List Char)
  | 0, s => some ([], s)
  | 1, s =>
      match matchFacet s with
      | none => none
      | some (f, r) => some ([f], r)
  | n + 2, s =>
      match matchFacet s with
      | none => none
      | some (f, r) =>
          match r with
          | '.' :: r2 =>
              match matchDotFacets (n + 1) r2 with
              | none => none
              | some (fs, r3) => some (f :: fs, r3)
          | _ => none

/-- A match of the full dataset pattern starting at the head of `s`: ten
dot-joined groups, the literal `\|`, then `(?P<data_node>\S+)` — a nonempty
maximal run of non-whitespace characters (maximal because `+` is greedy and
nothing follows it in the pattern).  Returns the eleven captures. -/
def matchDatasetAt (s : List Char) : Option (List (List Char)) :=
  match matchDotFacets 10 s with
  | none => none
  | some (fs, r) =>
      match r with
      | '|' :: r2 =>
          if (r2.takeWhile (fun c => !pySpace c)).isEmpty then none
          else some (fs ++ [r2.takeWhile (fun c => !pySpace c)])
      | _ => none

/-- `re.search` with the pattern of `get_dataset_pattern`: try a match at
each start position, leftmost first. -/
def searchDatasetPattern : List Char → Option (List (List Char))
  | [] => none
  | c :: cs =>
      match matchDatasetAt (c :: cs) with
      | some caps => some caps
      | none => searchDatasetPattern cs

/-- Joining facet values with literal dots, as in the identifier grammar. -/
def joinDots : List (List Char) → List Char
  | [] => []
  | [f] => f
  | f :: g :: rest => f ++ '.' :: joinDots (g :: rest)

/-- Rejoining the eleven captures with the original separators: the first
ten joined by dots, then a pipe, then the data_node capture. -/
def rejoinCaptures (caps : List (List Char)) : List Char :=
  joinDots caps.dropLast ++ '|' :: (caps.getLast?.getD [])

/-- A facet value that one group of the dataset pattern can capture in full:
at least two characters, leading character non-whitespace, no separator
characters anywhere. -/
def validFacet (f : List Char) : Bool :=
  match f with
  | [] => false
  | c :: cs => !pySpace c && !cs.isEmpty && (c :: cs).all notSep

/-- C5 counterexample: a string built from the canonical facet grammar with
the single-character facet value "a" in the first position — every facet
value free of dots and pipes, values joined by dots, then a pipe and the
data node — has no match anywhere under the dataset pattern, because each
group `\S[^.|]+` requires at least two characters.  Parsing fails, so the
claimed round trip fails as well. -/
theorem dataset_pattern_single_char_fails :
    searchDatasetPattern
      (String.toList "a.bb.cc.dd.ee.ff.gg.hh.ii.jj|nn") = none := by
  rfl

/-- A list whose head fails `p` has an empty `takeWhile`. -/
theorem takeWhile_eq_nil_of_head (p : Char → Bool) (r : List Char)
    (hr : ∀ y ∈ r.take 1, p y = false) : r.takeWhile p = [] := by
  cases r with
  | nil => rfl
  | cons y t =>
      have hy : p y = false := hr y (by simp)
      simp [List.takeWhile_cons, hy]

/-- A list whose head fails `p` is fixed by `dropWhile`. -/
theorem dropWhile_eq_self_of_head (p : Char → Bool) (r : List Char)
    (hr : ∀ y ∈ r.take 1, p y = false) : r.dropWhile p = r := by
  cases r with
  | nil => rfl
  | cons y t =>
      have hy : p y = false := hr y (by simp)
      simp [List.dropWhile_cons, hy]

/-- A list all of whose elements satisfy `p` is fixed by `takeWhile`. -/
theorem takeWhile_all (p : Char → Bool) :
    ∀ l : List Char, (∀ x ∈ l, p x = true) → l.takeWhile p = l
  | [], _ => rfl
  | c :: cs, h => by
      have hc := h c (by simp)
      have ht := takeWhile_all p cs (fun x hx => h x (by simp [hx]))
      simp [List.takeWhile_cons, hc, ht]

/-- A group of the pattern consumes exactly a valid facet when what follows
starts with a separator (or nothing follows). -/
theorem matchFacet_append (f r : List Char) (hf : validFacet f = true)
    (hr : ∀ y ∈ r.take 1, notSep y = false) :
    matchFacet (f ++ r) = some (f, r) := by
  cases f with
  | nil => simp [validFacet] at hf
  | cons c cs =>
      cases cs with
      | nil => simp [validFacet] at hf
      | cons d ds =>
          simp only [validFacet, Bool.and_eq_true, Bool.not_eq_true',
            List.all_eq_true] at hf
          obtain ⟨⟨hsp, -⟩, hall⟩ := hf
          have hallcs : ∀ x ∈ d :: ds, notSep x = true :=
            fun x hx => hall x (List.mem_cons_of_mem _ hx)
          have htake : ((d :: ds) ++ r).takeWhile notSep = d :: ds := by
            rw [List.takeWhile_append_of_pos hallcs,
              takeWhile_eq_nil_of_head _ _ hr, List.append_nil]
          have hdrop : ((d :: ds) ++ r).dropWhile notSep = r := by
            rw [List.dropWhile_append_of_pos hallcs,
              dropWhile_eq_self_of_head _ _ hr]
          have hd : notSep d = true := hallcs d (by simp)
          have htake2 : List.takeWhile notSep (d :: (ds ++ r)) = d :: ds := by
            simpa using htake
          have hdrop2 : List.dropWhile notSep (d :: (ds ++ r)) = r := by
            simpa using hdrop
          show matchFacet (c :: ((d :: ds) ++ r)) = _
          simp [matchFacet, hsp, htake2, hdrop2, hd]

/-- Ten (or any positive number of) dot-joined groups consume exactly the
dot-join of that many valid facets when what follows starts with a
separator. -/
theorem matchDotFacets_join (fs : List (List Char)) (r : List Char)
    (hne : fs ≠ []) (hf : ∀ f ∈ fs, validFacet f = true)
    (hr : ∀ y ∈ r.take 1, notSep y = false) :
    matchDotFacets fs.length (joinDots fs ++ r) = some (fs, r) := by
  induction fs with
  | nil => exact absurd rfl hne
  | cons f rest ih =>
      cases rest with
      | nil =>
          have hm := matchFacet_append f r (hf f (by simp)) hr
          simp [matchDotFacets, joinDots, hm]
      | cons g rest2 =>
          have hrdot : ∀ y ∈ ('.' :: (joinDots (g :: rest2) ++ r)).take 1,
              notSep y = false := by
            intro y hy
            simp only [List.take, List.mem_singleton] at hy
            subst hy
            decide
          have hm := matchFacet_append f ('.' :: (joinDots (g :: rest2) ++ r))
            (hf f (by simp)) hrdot
          have hih := ih (by simp)
            (fun x hx => hf x (List.mem_cons_of_mem _ hx))
          have hjoin : joinDots (f :: g :: rest2) ++ r =
              f ++ ('.' :: (joinDots (g :: rest2) ++ r)) := by
            simp [joinDots, List.append_assoc]
          have hlen : (f :: g :: rest2).length = rest2.length + 2 := by
            simp [List.length_cons]
          rw [hjoin, hlen]
          have hlen2 : (g :: rest2).length = rest2.length + 1 := by
            simp [List.length_cons]
          rw [hlen2] at hih
          simp [matchDotFacets, hm, hih]

/-- The full pattern matches the canonical identifier at position zero with
the original facet values as its captures. -/
theorem matchDatasetAt_join (fs : List (List Char)) (node : List Char)
    (hlen : fs.length = 10) (hf : ∀ f ∈ fs, validFacet f = true)
    (hnode1 : node ≠ []) (hnode2 : ∀ c ∈ node, pySpace c = false) :
    matchDatasetAt (joinDots fs ++ '|' :: node) = some (fs ++ [node]) := by
  have hne : fs ≠ [] := by
    intro h
    rw [h] at hlen
    simp at hlen
  have hrp : ∀ y ∈ ('|' :: node).take 1, notSep y = false := by
    intro y hy
    simp only [List.take, List.mem_singleton] at hy
    subst hy
    decide
  have h10 : matchDotFacets 10 (joinDots fs ++ '|' :: node) =
      some (fs, '|' :: node) := by
    rw [← hlen]
    exact matchDotFacets_join fs ('|' :: node) hne hf hrp
  have htw : node.takeWhile (fun c => !pySpace c) = node :=
    takeWhile_all _ node (fun x hx => by simp [hnode2 x hx])
  cases node with
  | nil => exact absurd rfl hnode1
  | cons n0 ns =>
      simp [matchDatasetAt, h10, htw]

/-- C5 amended: for every identifier built from the restricted facet grammar
— ten facet values, each of length at least two, starting with a
non-whitespace character and containing no dot and no pipe, joined by dots,
then a pipe and a nonempty whitespace-free data_node value — the search with
the dataset pattern succeeds with exactly the original eleven values as
captures, and rejoining the captures with the original separators reproduces
the source string exactly.  (The unamended grammar also admits
single-character values and values with leading whitespace; those make the
pattern fail, see the counterexample.) -/
theorem dataset_pattern_roundtrip (fs : List (List Char)) (node : List Char)
    (hlen : fs.length = 10) (hf : ∀ f ∈ fs, validFacet f = true)
    (hnode1 : node ≠ []) (hnode2 : ∀ c ∈ node, pySpace c = false) :
    searchDatasetPattern (joinDots fs ++ '|' :: node) = some (fs ++ [node]) ∧
    rejoinCaptures (fs ++ [node]) = joinDots fs ++ '|' :: node := by
  have hm := matchDatasetAt_join fs node hlen hf hnode1 hnode2
  constructor
  · have hex : ∃ c cs, joinDots fs ++ '|' :: node = c :: cs := by
      cases h : joinDots fs ++ '|' :: node with
      | nil => simp at h
      | cons c cs => exact ⟨c, cs, rfl⟩
    obtain ⟨c, cs, hs⟩ := hex
    rw [hs] at hm ⊢
    simp [searchDatasetPattern, hm]
  · simp [rejoinCaptures, List.dropLast_concat, List.getLast?_concat]

/-- C5 amended witness at a concrete identifier. -/
theorem dataset_pattern_roundtrip_witness :
    searchDatasetPattern (joinDots
        (["mm", "aa", "ii", "ss", "ee", "rr", "tt", "vv", "gg", "v2"].map
          String.toList) ++ '|' :: String.toList "node") =
      some ((["mm", "aa", "ii", "ss", "ee", "rr", "tt", "vv", "gg", "v2"].map
        String.toList) ++ [String.toList "node"]) ∧
    rejoinCaptures ((["mm", "aa", "ii", "ss", "ee", "rr", "tt", "vv", "gg",
        "v2"].map String.toList) ++ [String.toList "node"]) =
      joinDots (["mm", "aa", "ii", "ss", "ee", "rr", "tt", "vv", "gg",
        "v2"].map String.toList) ++ '|' :: String.toList "node" :=
  dataset_pattern_roundtrip _ _ (by decide) (by decide) (by decide)
    (by decide)

/-- One row of the search dataframe as built by `SolrESGFIndex.search` /
`GlobusESGFIndex.search`: the eleven facet captures of the dataset pattern
plus the raw id string, in the source column order (so that
`df.columns[:-3]` are the nine facets before version). -/
structure DatasetRecord where
  mip_era : String
  activity_id : String
  institution_id : String
  source_id : String
  experiment_id : String
  member_id : String
  table_id : String
  variable_id : String
  grid_label : String
  version : String
  data_node : String
  id : String
deriving DecidableEq, Repr

/-- One row of the combined dataframe returned by `combine_results`: the
`data_node` column is dropped and `id` now holds a list. -/
structure LogicalRecord where
  mip_era : String
  activity_id : String
  institution_id : String
  source_id : String
  experiment_id : String
  member_id : String
  table_id : String
  variable_id : String
  grid_label : String
  version : String
  ids : List String
deriving DecidableEq, Repr

/-- The grouping key `list(df.columns[:-3])` of `combine_results`: every
facet except version, data_node and id. -/
def facetKey (r : DatasetRecord) : List String :=
  [r.mip_era, r.activity_id, r.institution_id, r.source_id, r.experiment_id,
   r.member_id, r.table_id, r.variable_id, r.grid_label]

/-- The same key read off a combined row. -/
def logicalKey (l : LogicalRecord) : List String :=
  [l.mip_era, l.activity_id, l.institution_id, l.source_id, l.experiment_id,
   l.member_id, l.table_id, l.variable_id, l.grid_label]

/-- Maximum of two version strings, as Python compares `str` values:
lexicographically by code point. -/
def strMax (a b : String) : String := if a < b then b else a

/-- `grp.version.max()`: the maximum version string of a group of rows, the
fold of pairwise maxima over the nonempty group (the empty-group value is
never consulted: every row belongs to its own group). -/
def maxVersionOf (l : List DatasetRecord) : String :=
  match l with
  | [] => ""
  | r :: rest => rest.foldl (fun a x => strMax a x.version) r.version

/-- `pd.concat(dfs).drop_duplicates(subset="id")`: keep the first row for
each raw id string, preserving order. -/
def dropDupById : List DatasetRecord → List DatasetRecord
  | [] => []
  | r :: rest =>
      r :: dropDupById (rest.filter (fun x => x.id != r.id))
termination_by l => l.length
decreasing_by
  simp only [List.length_cons]
  exact Nat.lt_succ_of_le (List.length_filter_le _ _)

/-- The first groupby loop of `combine_results` (core.py lines 216-217):
drop every row whose version is not the maximum of its facet-key group. -/
def versionFilter (df : List DatasetRecord) : List DatasetRecord :=
  df.filter (fun r =>
    r.version == maxVersionOf (df.filter (fun x => facetKey x == facetKey r)))

/-- Dropping the data_node column and replacing id by a list of ids. -/
def toLogical (r : DatasetRecord) (ids : List String) : LogicalRecord :=
  { mip_era := r.mip_era, activity_id := r.activity_id,
    institution_id := r.institution_id, source_id := r.source_id,
    experiment_id := r.experiment_id, member_id := r.member_id,
    table_id := r.table_id, variable_id := r.variable_id,
    grid_label := r.grid_label, version := r.version, ids := ids }

/-- The second groupby loop of `combine_results` (core.py lines 219-221):
keep one row per facet-key group — the group's first row — and replace its
id with the list of the group's ids in encounter order; finally the
data_node column is dropped. -/
def groupRows : List DatasetRecord → List LogicalRecord
  | [] => []
  | r :: rest =>
      toLogical r (r.id ::
          (rest.filter (fun x => facetKey x == facetKey r)).map
            (fun x => x.id)) ::
        groupRows (rest.filter (fun x => facetKey x != facetKey r))
termination_by l => l.length
decreasing_by
  simp only [List.length_cons]
  exact Nat.lt_succ_of_le (List.length_filter_le _ _)

/-- Embedding of `combine_results` (core.py lines 209-223): raise
`ValueError("Search returned no results.")` when the input list of frames is
empty, otherwise concatenate, deduplicate by id, drop non-maximum versions
per group, then collapse each group to one row with a list id. -/
def combine_results (dfs : List (List DatasetRecord)) :
    Except String (List LogicalRecord) :=
  if dfs.isEmpty then Except.error "Search returned no results."
  else
    Except.ok (groupRows (versionFilter (dropDupById dfs.flatten)))

/-- The key of a combined row is the key of the record it came from. -/
theorem logicalKey_toLogical (r : DatasetRecord) (ids : List String) :
    logicalKey (toLogical r ids) = facetKey r := rfl

/-- Deduplication by id is the identity on inputs whose ids are pairwise
distinct. -/
theorem dropDupById_eq_self : ∀ l : List DatasetRecord,
    (l.map (fun r => r.id)).Nodup → dropDupById l = l
  | [], _ => by rw [dropDupById]
  | r :: rest, h => by
      rw [List.map_cons, List.nodup_cons] at h
      obtain ⟨hnotin, hrest⟩ := h
      have hfil : rest.filter (fun x => x.id != r.id) = rest := by
        rw [List.filter_eq_self]
        intro x hx
        simp only [bne_iff_ne, ne_eq]
        intro heq
        exact hnotin (heq ▸ List.mem_map_of_mem _ hx)
      rw [dropDupById, hfil, dropDupById_eq_self rest hrest]

/-- Groups whose key never occurs in the input contribute nothing to
`groupRows` output under that key. -/
theorem groupRows_filter_nil (k : List String) :
    ∀ (n : Nat) (l : List DatasetRecord), l.length ≤ n →
      (∀ a ∈ l, (facetKey a == k) = false) →
      (groupRows l).filter (fun x => logicalKey x == k) = [] := by
  intro n
  induction n with
  | zero =>
      intro l hlen _
      have hl : l = [] := List.eq_nil_of_length_eq_zero (Nat.le_zero.mp hlen)
      subst hl
      simp [groupRows]
  | succ n ih =>
      intro l hlen h
      cases l with
      | nil => simp [groupRows]
      | cons r rest =>
          have hr : (facetKey r == k) = false := h r (by simp)
          rw [groupRows, List.filter_cons]
          simp only [logicalKey_toLogical, hr, if_false]
          apply ih
          · calc (rest.filter (fun x => facetKey x != facetKey r)).length
                ≤ rest.length := List.length_filter_le _ _
              _ ≤ n := Nat.le_of_succ_le_succ hlen
          · intro a ha
            exact h a (List.mem_cons_of_mem _ (List.mem_filter.mp ha).1)

/-- When exactly one input row carries key `k`, `groupRows` outputs exactly
one combined row under that key: that row with its single id. -/
theorem groupRows_filter_single (k : List String) :
    ∀ (n : Nat) (l : List DatasetRecord), l.length ≤ n →
      ∀ r, l.filter (fun x => facetKey x == k) = [r] →
      (groupRows l).filter (fun x => logicalKey x == k) =
        [toLogical r [r.id]] := by
  intro n
  induction n with
  | zero =>
      intro l hlen r hr
      have hl : l = [] := List.eq_nil_of_length_eq_zero (Nat.le_zero.mp hlen)
      subst hl
      simp at hr
  | succ n ih =>
      intro l hlen r hfil
      cases l with
      | nil => simp at hfil
      | cons x rest =>
          rw [List.filter_cons] at hfil
          by_cases hx : (facetKey x == k) = true
          · rw [if_pos hx] at hfil
            have hxr : x = r := (List.cons_eq_cons.mp hfil).1
            have hrest : rest.filter (fun a => facetKey a == k) = [] :=
              (List.cons_eq_cons.mp hfil).2
            subst hxr
            have hkx : facetKey x = k := by simpa [beq_iff_eq] using hx
            have hnone : ∀ a ∈ rest, (facetKey a == k) = false := by
              intro a ha
              by_contra hc
              have hc2 : (facetKey a == k) = true := by
                cases hb : (facetKey a == k) with
                | false => exact absurd hb hc
                | true => rfl
              have : a ∈ rest.filter (fun a => facetKey a == k) :=
                List.mem_filter.mpr ⟨ha, hc2⟩
              rw [hrest] at this
              simp at this
            have hsame : rest.filter (fun a => facetKey a == facetKey x) = [] := by
              rw [hkx]
              exact hrest
            rw [groupRows, List.filter_cons]
            simp only [logicalKey_toLogical, hx, if_true, hsame, List.map_nil]
            have htail :
                (groupRows (rest.filter (fun a => facetKey a != facetKey x))).filter
                  (fun y => logicalKey y == k) = [] := by
              apply groupRows_filter_nil k rest.length
              · exact List.length_filter_le _ _
              · intro a ha
                exact hnone a (List.mem_filter.mp ha).1
            rw [htail]
          · have hx2 : (facetKey x == k) = false := by
              cases hb : (facetKey x == k) with
              | false => rfl
              | true => exact absurd hb hx
            rw [if_neg hx] at hfil
            have hkx : facetKey x ≠ k := by simpa [beq_iff_eq] using hx2
            rw [groupRows, List.filter_cons]
            simp only [logicalKey_toLogical, hx2, if_false]
            have hsub : (rest.filter (fun a => facetKey a != facetKey x)).filter
                (fun a => facetKey a == k) = [r] := by
              rw [List.filter_filter]
              have hcongr : ∀ a ∈ rest,
                  ((facetKey a == k) && (facetKey a != facetKey x)) =
                    (facetKey a == k) := by
                intro a _
                cases hb : (facetKey a == k) with
                | false => simp
                | true =>
                    have : facetKey a = k := by simpa [beq_iff_eq] using hb
                    simp [this, bne_iff_ne]
                    exact fun hh => hkx hh.symm
              rw [List.filter_congr hcongr]
              exact hfil
            apply ih
            · calc (rest.filter (fun a => facetKey a != facetKey x)).length
                  ≤ rest.length := List.length_filter_le _ _
                _ ≤ n := Nat.le_of_succ_le_succ hlen
            · exact hsub

/-- C6: for every input to `combine_results` whose records carry pairwise
distinct raw ids and in which exactly two records — identical in all facets
except version — carry the facet-key `k`, the output contains a single
logical dataset for that facet combination, and its id list holds only the
id of the record with the greater (maximum observed) version string; the
record at the lower version is discarded. -/
theorem combine_results_version_monotonic
    (dfs : List (List DatasetRecord)) (k : List String)
    (r1 r2 : DatasetRecord)
    (hnodup : (dfs.flatten.map (fun r => r.id)).Nodup)
    (hgrp : dfs.flatten.filter (fun r => facetKey r == k) = [r1, r2])
    (_hnode : r1.data_node = r2.data_node)
    (hver : r1.version < r2.version) :
    ∃ out, combine_results dfs = Except.ok out ∧
      out.filter (fun l => logicalKey l == k) = [toLogical r2 [r2.id]] := by
  have hne : dfs.isEmpty = false := by
    cases dfs with
    | nil => simp at hgrp
    | cons a t => rfl
  have hdedup : dropDupById dfs.flatten = dfs.flatten :=
    dropDupById_eq_self _ hnodup
  have hr1mem : r1 ∈ dfs.flatten.filter (fun r => facetKey r == k) := by
    rw [hgrp]; simp
  have hr2mem : r2 ∈ dfs.flatten.filter (fun r => facetKey r == k) := by
    rw [hgrp]; simp
  have hk1 : facetKey r1 = k := by
    have hb := (List.mem_filter.mp hr1mem).2
    simpa [beq_iff_eq] using hb
  have hk2 : facetKey r2 = k := by
    have hb := (List.mem_filter.mp hr2mem).2
    simpa [beq_iff_eq] using hb
  have hinner : ∀ r : DatasetRecord, facetKey r = k →
      dfs.flatten.filter (fun x => facetKey x == facetKey r) = [r1, r2] := by
    intro r hr
    rw [hr]
    exact hgrp
  have hmax12 : maxVersionOf [r1, r2] = r2.version := by
    show strMax r1.version r2.version = r2.version
    unfold strMax
    rw [if_pos hver]
  have hP1 : (r1.version == maxVersionOf
      (dfs.flatten.filter (fun x => facetKey x == facetKey r1))) = false := by
    rw [hinner r1 hk1, hmax12]
    simp only [beq_eq_false_iff_ne, ne_eq]
    exact ne_of_lt hver
  have hP2 : (r2.version == maxVersionOf
      (dfs.flatten.filter (fun x => facetKey x == facetKey r2))) = true := by
    rw [hinner r2 hk2, hmax12]
    simp
  have hvf : (versionFilter dfs.flatten).filter
      (fun r => facetKey r == k) = [r2] := by
    unfold versionFilter
    rw [List.filter_filter]
    have hcomm : ∀ a ∈ dfs.flatten,
        ((facetKey a == k) && (a.version == maxVersionOf
          (dfs.flatten.filter (fun x => facetKey x == facetKey a)))) =
        ((a.version == maxVersionOf
          (dfs.flatten.filter (fun x => facetKey x == facetKey a))) &&
          (facetKey a == k)) := by
      intro a _
      exact Bool.and_comm _ _
    rw [List.filter_congr hcomm, ← List.filter_filter, hgrp]
    rw [List.filter_cons, List.filter_cons, List.filter_nil]
    rw [if_neg (by rw [hP1]; exact Bool.false_ne_true), if_pos hP2]
  refine ⟨groupRows (versionFilter dfs.flatten), ?_, ?_⟩
  · unfold combine_results
    rw [if_neg (by simp [hne]), hdedup]
  · exact groupRows_filter_single k (versionFilter dfs.flatten).length _
      (Nat.le_refl _) r2 hvf

/-- C6 witness at a concrete input: two records identical except for version
and id, contributed by two frames. -/
theorem combine_results_version_monotonic_witness :
    ∃ out, combine_results
        [[⟨"CMIP6", "C", "I", "S", "E", "M", "T", "V", "G", "v20190726",
            "nodeA", "id1"⟩],
         [⟨"CMIP6", "C", "I", "S", "E", "M", "T", "V", "G", "v20200101",
            "nodeA", "id2"⟩]] = Except.ok out ∧
      out.filter (fun l =>
          logicalKey l == ["CMIP6", "C", "I", "S", "E", "M", "T", "V", "G"]) =
        [toLogical ⟨"CMIP6", "C", "I", "S", "E", "M", "T", "V", "G",
          "v20200101", "nodeA", "id2"⟩ ["id2"]] :=
  combine_results_version_monotonic _ _
    ⟨"CMIP6", "C", "I", "S", "E", "M", "T", "V", "G", "v20190726", "nodeA",
      "id1"⟩ _ (by decide) (by decide) (by decide)
    (by rw [String.lt_iff_toList_lt]; decide)

/-- C9 counterexample: a nonempty input list consisting of one empty record
list has zero records — hence zero groups after duplicate removal and
version filtering — yet `combine_results` does not fail with the
empty-result error: it returns an empty table.  (An input like this defeats
the claimed "exactly when": the error is raised only on an empty input
list.) -/
theorem combine_results_empty_frame_ok :
    combine_results [([] : List DatasetRecord)] = Except.ok [] := by
  simp [combine_results, dropDupById, versionFilter, groupRows]

/-- C9 amended: `combine_results` fails with the empty-result error exactly
when its input list of frames is empty; any nonempty input — even one whose
frames hold zero records in total — yields an Except.ok table. -/
theorem combine_results_error_iff_empty (dfs : List (List DatasetRecord)) :
    combine_results dfs = Except.error "Search returned no results." ↔
      dfs = [] := by
  cases dfs with
  | nil => simp [combine_results]
  | cons a t => simp [combine_results]

/-- One element of the `infos` list consumed by `combine_file_info`: the
scalar fields (checksum, checksum type, size, resolved path) and, per
transport-protocol name, the list of mirror URLs — exactly the dictionary
shape built by `SolrESGFIndex.get_file_info` / `GlobusESGFIndex.get_file_info`,
with the list-valued keys separated from the scalar keys as the Python code
separates them by `isinstance(val, list)`. -/
structure FileInfo where
  checksum : String
  checksum_type : String
  size : Nat
  path : String
  urls : List (String × List String)
deriving DecidableEq, Repr

/-- How a call to an index's `get_file_info` can fail: with the pyesgf
search-protocol exception (`EsgfSearchException`, the only type the
`except` clause of `combine_file_info` names) or with any other exception —
a `requests` connection error, a Globus SDK error, and so on. -/
inductive IndexFailure where
  | esgfSearchException
  | otherError
deriving DecidableEq, Repr

/-- `merged_info[path][key] += val` for one list-valued key: append `v` to
the first entry under the protocol `k`, or add a new entry at the end. -/
def addUrlList (m : List (String × List String)) (k : String)
    (v : List String) : List (String × List String) :=
  match m with
  | [] => [(k, v)]
  | (k2, v2) :: rest =>
      if k2 == k then (k2, v2 ++ v) :: rest
      else (k2, v2) :: addUrlList rest k v

/-- Folding one later entry for a path into the merged record: every
list-valued key is concatenated onto the existing protocol list (or seeded),
every scalar key is already present and therefore ignored — first source
wins. -/
def mergeInfo (m i : FileInfo) : FileInfo :=
  { m with urls := i.urls.foldl (fun acc kv => addUrlList acc kv.1 kv.2) m.urls }

/-- `merged_info` update for one entry: seed a new path key, or merge into
the existing record for that path. -/
def insertByPath (acc : List (String × FileInfo)) (i : FileInfo) :
    List (String × FileInfo) :=
  match acc with
  | [] => [(i.path, i)]
  | (p, m) :: rest =>
      if p == i.path then (p, mergeInfo m i) :: rest
      else (p, m) :: insertByPath rest i

/-- The whole merging loop of `combine_file_info` over the concatenated
entry lists, then the final `[info for key, info in merged_info.items()]`
(Python dicts preserve insertion order). -/
def mergeAll (infos : List FileInfo) : List FileInfo :=
  (infos.foldl insertByPath []).map (fun e => e.2)

/-- The per-source loop of `combine_file_info` (core.py lines 324-328):
`ind.get_file_info` results are concatenated in source order; a source
raising `EsgfSearchException` is skipped by the `except` clause; a source
raising anything else propagates its exception out of the whole function. -/
def gatherInfos : List (Except IndexFailure (List FileInfo)) →
    Except IndexFailure (List FileInfo)
  | [] => Except.ok []
  | Except.error IndexFailure.esgfSearchException :: rest => gatherInfos rest
  | Except.error IndexFailure.otherError :: _ =>
      Except.error IndexFailure.otherError
  | Except.ok l :: rest => (gatherInfos rest).map (fun t => l ++ t)

/-- Embedding of `combine_file_info` (core.py lines 319-343), with each
index represented by the outcome of its `get_file_info` call. -/
def combine_file_info (indices : List (Except IndexFailure (List FileInfo))) :
    Except IndexFailure (List FileInfo) :=
  (gatherInfos indices).map mergeAll

/-- Total length of the URL lists a record holds under protocol `k`. -/
def urlLen (us : List (String × List String)) (k : String) : Nat :=
  ((us.filter (fun e => e.1 == k)).map (fun e => e.2.length)).sum

/-- Per-protocol length of a record's URL lists, one cons step. -/
theorem urlLen_cons (a : String) (b : List String)
    (t : List (String × List String)) (k2 : String) :
    urlLen ((a, b) :: t) k2 =
      (if a == k2 then b.length else 0) + urlLen t k2 := by
  by_cases h : (a == k2) = true
  · simp [urlLen, List.filter_cons, h]
  · have h2 : (a == k2) = false := by
      cases hb : (a == k2) with
      | false => rfl
      | true => exact absurd hb h
    simp [urlLen, List.filter_cons, h2]

/-- Appending one URL list under protocol `k` grows exactly that protocol's
total length by the list's length. -/
theorem urlLen_addUrlList (m : List (String × List String)) (k : String)
    (v : List String) (k2 : String) :
    urlLen (addUrlList m k v) k2 =
      urlLen m k2 + (if k == k2 then v.length else 0) := by
  induction m with
  | nil =>
      simp only [addUrlList]
      rw [urlLen_cons]
      simp [urlLen]
  | cons e rest ih =>
      cases e with
      | mk k3 v3 =>
          simp only [addUrlList]
          by_cases h3 : (k3 == k) = true
          · rw [if_pos h3, urlLen_cons, urlLen_cons]
            have hk3 : k3 = k := by simpa [beq_iff_eq] using h3
            subst hk3
            by_cases hk2 : (k3 == k2) = true
            · simp [hk2]
              omega
            · have hk2f : (k3 == k2) = false := by
                cases hb : (k3 == k2) with
                | false => rfl
                | true => exact absurd hb hk2
              simp [hk2f]
          · rw [if_neg h3, urlLen_cons, urlLen_cons, ih]
            omega

/-- Folding a list of protocol entries into a record adds each protocol's
contributed length. -/
theorem urlLen_foldl_addUrl (l : List (String × List String)) :
    ∀ (m : List (String × List String)) (k2 : String),
      urlLen (l.foldl (fun acc kv => addUrlList acc kv.1 kv.2) m) k2 =
        urlLen m k2 + urlLen l k2 := by
  induction l with
  | nil => intro m k2; simp [urlLen]
  | cons kv t ih =>
      intro m k2
      cases kv with
      | mk a b =>
          simp only [List.foldl_cons]
          rw [ih, urlLen_addUrlList, urlLen_cons]
          by_cases h : (a == k2) = true
          · simp [h]
            omega
          · have hf : (a == k2) = false := by
              cases hb : (a == k2) with
              | false => rfl
              | true => exact absurd hb h
            simp [hf]

/-- Merging a later entry concatenates its URL lists per protocol. -/
theorem urlLen_mergeInfo (m i : FileInfo) (k : String) :
    urlLen (mergeInfo m i).urls k = urlLen m.urls k + urlLen i.urls k :=
  urlLen_foldl_addUrl i.urls m.urls k

/-- Folding later entries never changes the scalar fields: first source
wins. -/
theorem foldl_mergeInfo_scalars :
    ∀ (l : List FileInfo) (m : FileInfo),
      (l.foldl mergeInfo m).checksum = m.checksum ∧
      (l.foldl mergeInfo m).checksum_type = m.checksum_type ∧
      (l.foldl mergeInfo m).size = m.size ∧
      (l.foldl mergeInfo m).path = m.path
  | [], _ => ⟨rfl, rfl, rfl, rfl⟩
  | i :: t, m => foldl_mergeInfo_scalars t (mergeInfo m i)

/-- Folding later entries accumulates each protocol's total URL count. -/
theorem urlLen_foldl_mergeInfo :
    ∀ (l : List FileInfo) (m : FileInfo) (k : String),
      urlLen ((l.foldl mergeInfo m).urls) k =
        urlLen m.urls k + (l.map (fun i => urlLen i.urls k)).sum := by
  intro l
  induction l with
  | nil => intro m k; simp
  | cons i t ih =>
      intro m k
      simp only [List.foldl_cons, List.map_cons, List.sum_cons]
      rw [ih, urlLen_mergeInfo]
      omega

/-- Entries that all share the merged record's path keep folding into that
single record. -/
theorem foldl_insert_single (p : String) :
    ∀ (infos : List FileInfo) (m : FileInfo), m.path = p →
      (∀ i ∈ infos, i.path = p) →
      infos.foldl insertByPath [(p, m)] = [(p, infos.foldl mergeInfo m)] := by
  intro infos
  induction infos with
  | nil => intro m _ _; rfl
  | cons i t ih =>
      intro m hm hall
      have hip : i.path = p := hall i (by simp)
      have hins : insertByPath [(p, m)] i = [(p, mergeInfo m i)] := by
        simp [insertByPath, hip]
      simp only [List.foldl_cons]
      rw [hins]
      exact ih (mergeInfo m i) hm (fun x hx => hall x (by simp [hx]))

/-- With every source succeeding, the gathered entry list is the
concatenation of the per-source lists in source order. -/
theorem gatherInfos_ok : ∀ srcs : List (List FileInfo),
    gatherInfos (srcs.map Except.ok) = Except.ok srcs.flatten
  | [] => rfl
  | s :: t => by
      simp only [List.map_cons, gatherInfos, gatherInfos_ok t, Except.map,
        List.flatten_cons]

/-- C7: when all sources succeed and every contributed entry resolves to the
same path, `combine_file_info` outputs exactly one merged record: its path,
checksum, checksum type and size are the first-seen entry's values, and for
every transport protocol the merged mirror-URL list length is the sum of the
lengths contributed by every input entry for that protocol. -/
theorem combine_file_info_merge_complete (srcs : List (List FileInfo))
    (p : String) (i0 : FileInfo) (rest : List FileInfo)
    (hflat : srcs.flatten = i0 :: rest)
    (hpath : ∀ i ∈ srcs.flatten, i.path = p) :
    ∃ m, combine_file_info (srcs.map Except.ok) = Except.ok [m] ∧
      m.path = p ∧ m.checksum = i0.checksum ∧
      m.checksum_type = i0.checksum_type ∧ m.size = i0.size ∧
      ∀ proto, urlLen m.urls proto =
        ((i0 :: rest).map (fun i => urlLen i.urls proto)).sum := by
  have hp0 : i0.path = p := hpath i0 (by rw [hflat]; simp)
  have hprest : ∀ i ∈ rest, i.path = p := fun i hi =>
    hpath i (by rw [hflat]; simp [hi])
  obtain ⟨hc, hct, hs, hp⟩ := foldl_mergeInfo_scalars rest i0
  refine ⟨rest.foldl mergeInfo i0, ?_, ?_, hc, hct, hs, ?_⟩
  · unfold combine_file_info
    rw [gatherInfos_ok, hflat]
    show Except.ok (mergeAll (i0 :: rest)) = _
    unfold mergeAll
    simp only [List.foldl_cons]
    have hins0 : insertByPath [] i0 = [(i0.path, i0)] := rfl
    rw [hins0, hp0, foldl_insert_single p rest i0 hp0 hprest]
    rfl
  · rw [hp, hp0]
  · intro proto
    rw [urlLen_foldl_mergeInfo, List.map_cons, List.sum_cons]

/-- C7 witness at a concrete input: two sources contributing entries for the
same path with overlapping and disjoint protocols. -/
theorem combine_file_info_merge_complete_witness :
    ∃ m, combine_file_info
        [Except.ok [⟨"c1", "SHA256", 5, "p/f.nc",
            [("HTTPServer", ["u1"]), ("OPENDAP", ["o1"])]⟩],
         Except.ok [⟨"c2", "MD5", 7, "p/f.nc",
            [("HTTPServer", ["u2", "u3"])]⟩]] = Except.ok [m] ∧
      m.path = "p/f.nc" ∧ m.checksum = "c1" ∧ m.checksum_type = "SHA256" ∧
      m.size = 5 ∧
      ∀ proto, urlLen m.urls proto =
        (([⟨"c1", "SHA256", 5, "p/f.nc",
            [("HTTPServer", ["u1"]), ("OPENDAP", ["o1"])]⟩,
           ⟨"c2", "MD5", 7, "p/f.nc",
            [("HTTPServer", ["u2", "u3"])]⟩] : List FileInfo).map
          (fun i => urlLen i.urls proto)).sum :=
  combine_file_info_merge_complete
    [[⟨"c1", "SHA256", 5, "p/f.nc",
        [("HTTPServer", ["u1"]), ("OPENDAP", ["o1"])]⟩],
     [⟨"c2", "MD5", 7, "p/f.nc", [("HTTPServer", ["u2", "u3"])]⟩]]
    "p/f.nc" _ _ rfl (by decide)

/-- C8 counterexample: a source failing with anything other than the pyesgf
search-protocol exception — here a connection-style error — is not caught by
the `except EsgfSearchException` clause: the whole merge aborts with that
error instead of skipping the source and merging the remaining one. -/
theorem combine_file_info_other_error_aborts :
    combine_file_info
      [Except.error IndexFailure.otherError,
       Except.ok [⟨"c1", "SHA256", 5, "p/f.nc", [("HTTPServer", ["u1"])]⟩]] =
      Except.error IndexFailure.otherError := rfl

/-- C8 amended: a source failing with the pyesgf search-protocol exception
(`EsgfSearchException`) is skipped and contributes zero results — the merge
over the remaining sources is unaffected, and with all remaining sources
succeeding the merge of their concatenated entries is still produced.  Any
other failure kind propagates (see the counterexample). -/
theorem combine_file_info_skips_esgf_error
    (rest : List (Except IndexFailure (List FileInfo)))
    (srcs : List (List FileInfo)) :
    combine_file_info
        (Except.error IndexFailure.esgfSearchException :: rest) =
      combine_file_info rest ∧
    combine_file_info (Except.error IndexFailure.esgfSearchException ::
        srcs.map Except.ok) = Except.ok (mergeAll srcs.flatten) := by
  constructor
  · rfl
  · show (gatherInfos (srcs.map Except.ok)).map mergeAll = _
    rw [gatherInfos_ok]
    rfl
